import Mathlib

/-
Verification of the core of the Argus_V repository against its design
specification.

The development shallowly embeds the relevant Python code:

* `compute_metrics` and `tune_iforest` from `scripts/train_nsl_kdd.py`
  (the Evaluator and the grid-search ModelTrainer/Tuner);
* `FlowPreprocessor.prepare_features`, `FlowPreprocessor.detect_feature_outliers`
  and `FlowPreprocessor.tune_contamination_parameter` from
  `src/argus_v/mnemosyne/preprocessing.py`;
* `ModelManager.explain_anomaly` (whose implementation file is not part of the
  provided sources; it is modelled from the specification and checked against
  the vectors of `tests/aegis/test_xai.py`).

Machine floats are embedded as rationals; numpy/pandas/sklearn primitives the
code calls (StandardScaler, IsolationForest, cross_val_score) are embedded
either concretely (quantiles, linspace) or as explicit function parameters
(the black-box anomaly scorer, as the specification directs).
-/

namespace ArgusV

/-- Result record of `compute_metrics` (`scripts/train_nsl_kdd.py`, the
`Metrics` dataclass): confusion counts and derived ratios. -/
structure Metrics where
  tp : ℕ
  fp : ℕ
  tn : ℕ
  fn : ℕ
  precision : ℚ
  «recall» : ℚ
  f1 : ℚ
  true_positive_rate : ℚ
  false_positive_rate : ℚ
deriving DecidableEq, Repr

/-- Embedding of `compute_metrics(y_true_attack, y_pred_attack)`
(`scripts/train_nsl_kdd.py` lines 160-186).  Binary label arrays are lists of
booleans (`true` = 1 = attack); the paired arrays are traversed together.
Each guarded Python ratio `x / d if d else 0.0` becomes an `if d ≠ 0` split. -/
def compute_metrics (y_true_attack y_pred_attack : List Bool) : Metrics :=
  let pairs := y_true_attack.zip y_pred_attack
  let tp := pairs.countP (fun ab => ab.1 && ab.2)
  let tn := pairs.countP (fun ab => !ab.1 && !ab.2)
  let fp := pairs.countP (fun ab => !ab.1 && ab.2)
  let fn := pairs.countP (fun ab => ab.1 && !ab.2)
  let precision : ℚ := if tp + fp ≠ 0 then (tp : ℚ) / ((tp : ℚ) + (fp : ℚ)) else 0
  let «recall» : ℚ := if tp + fn ≠ 0 then (tp : ℚ) / ((tp : ℚ) + (fn : ℚ)) else 0
  let f1 : ℚ :=
    if precision + «recall» ≠ 0 then 2 * precision * «recall» / (precision + «recall») else 0
  let tpr := «recall»
  let fpr : ℚ := if fp + tn ≠ 0 then (fp : ℚ) / ((fp : ℚ) + (tn : ℚ)) else 0
  ⟨tp, fp, tn, fn, precision, «recall», f1, tpr, fpr⟩

/-- True-positive count of `compute_metrics`. -/
def tpCount (yt yp : List Bool) : ℕ := (yt.zip yp).countP fun ab => ab.1 && ab.2

/-- True-negative count of `compute_metrics`. -/
def tnCount (yt yp : List Bool) : ℕ := (yt.zip yp).countP fun ab => !ab.1 && !ab.2

/-- False-positive count of `compute_metrics`. -/
def fpCount (yt yp : List Bool) : ℕ := (yt.zip yp).countP fun ab => !ab.1 && ab.2

/-- False-negative count of `compute_metrics`. -/
def fnCount (yt yp : List Bool) : ℕ := (yt.zip yp).countP fun ab => ab.1 && !ab.2

/-- The precision ratio computed by `compute_metrics`. -/
def precisionOf (yt yp : List Bool) : ℚ :=
  if tpCount yt yp + fpCount yt yp ≠ 0 then
    (tpCount yt yp : ℚ) / ((tpCount yt yp : ℚ) + (fpCount yt yp : ℚ))
  else 0

/-- The recall ratio computed by `compute_metrics`. -/
def recallOf (yt yp : List Bool) : ℚ :=
  if tpCount yt yp + fnCount yt yp ≠ 0 then
    (tpCount yt yp : ℚ) / ((tpCount yt yp : ℚ) + (fnCount yt yp : ℚ))
  else 0

/-- The F1 score computed by `compute_metrics`. -/
def f1Of (yt yp : List Bool) : ℚ :=
  if precisionOf yt yp + recallOf yt yp ≠ 0 then
    2 * precisionOf yt yp * recallOf yt yp / (precisionOf yt yp + recallOf yt yp)
  else 0

/-- The false-positive rate computed by `compute_metrics`. -/
def fprOf (yt yp : List Bool) : ℚ :=
  if fpCount yt yp + tnCount yt yp ≠ 0 then
    (fpCount yt yp : ℚ) / ((fpCount yt yp : ℚ) + (tnCount yt yp : ℚ))
  else 0

/-- `compute_metrics` unfolded to its named components. -/
lemma compute_metrics_def (yt yp : List Bool) :
    compute_metrics yt yp =
      ⟨tpCount yt yp, fpCount yt yp, tnCount yt yp, fnCount yt yp,
        precisionOf yt yp, recallOf yt yp, f1Of yt yp, recallOf yt yp, fprOf yt yp⟩ := rfl

/-- Whether an `Except` value is a success. -/
def exceptIsOk {ε α : Type} (e : Except ε α) : Bool :=
  match e with
  | .ok _ => true
  | .error _ => false

/-- A cell of a raw flow frame: pandas columns here hold either numbers or
protocol strings. -/
inductive Val where
  | num (q : ℚ)
  | str (s : String)
deriving DecidableEq, Repr

/-- A raw flow frame, embedded column-oriented: named columns of cells. -/
abbrev RawFrame := List (String × List Val)

/-- `df.columns`. -/
def frameCols (df : RawFrame) : List String := df.map Prod.fst

/-- Column access `df[c]` (empty for an absent column; `prepare_features`
only reads columns it has checked for). -/
def getCol (df : RawFrame) (c : String) : List Val :=
  match df.lookup c with
  | some v => v
  | none => []

/-- The eight required feature columns of `FlowPreprocessor.prepare_features`
(`src/argus_v/mnemosyne/preprocessing.py` lines 41-44). -/
def requiredFeatureColumns : List String :=
  ["bytes_in", "bytes_out", "packets_in", "packets_out", "duration",
    "src_port", "dst_port", "protocol"]

/-- The fixed protocol dictionary (`preprocessing.py` lines 57-59). -/
def protocolMap : List (String × ℚ) :=
  [("TCP", 1), ("UDP", 2), ("ICMP", 3), ("IGMP", 4), ("OTHER", 5)]

/-- `Series.map(protocol_map)` on one cell followed by `.fillna(5)`: a string
found in the dictionary maps to its value, anything else (an unknown string,
or a non-string cell) becomes NaN under `.map` and is filled with 5. -/
def mapProtocolCell (v : Val) : Val :=
  match v with
  | .str s =>
    match protocolMap.lookup s with
    | some q => .num q
    | none => .num 5
  | .num _ => .num 5

/-- `.abs()` on one cell (ports are numeric in a valid frame; pandas would
raise on a non-numeric port column, which the claims do not exercise). -/
def absCell (v : Val) : Val :=
  match v with
  | .num q => .num |q|
  | .str s => .str s

/-- The prepared feature frame produced by `prepare_features`: exactly the
eight selected columns, post-transformation. -/
structure PreparedFeatures where
  bytes_in : List Val
  bytes_out : List Val
  packets_in : List Val
  packets_out : List Val
  duration : List Val
  src_port : List Val
  dst_port : List Val
  protocol : List Val
deriving DecidableEq, Repr

/-- Embedding of `FlowPreprocessor.prepare_features` (`preprocessing.py`
lines 31-78): check the eight required columns, raising (`ValueError`, the
spec's SchemaError) with the list of missing columns when any is absent;
otherwise select those columns, map the protocol column through the fixed
dictionary with `fillna(5)`, and replace both port columns by their absolute
values. -/
def prepare_features (df : RawFrame) : Except (List String) PreparedFeatures :=
  let missing_features :=
    requiredFeatureColumns.filter (fun c => !((frameCols df).contains c))
  if missing_features ≠ [] then
    .error missing_features
  else
    .ok
      { bytes_in := getCol df "bytes_in"
        bytes_out := getCol df "bytes_out"
        packets_in := getCol df "packets_in"
        packets_out := getCol df "packets_out"
        duration := getCol df "duration"
        src_port := (getCol df "src_port").map absCell
        dst_port := (getCol df "dst_port").map absCell
        protocol := (getCol df "protocol").map mapProtocolCell }

/-- The property C4 asserts of `prepare_features`: failure exactly on a
missing required column, the fixed protocol dictionary semantics (written as
the spec's case chain, with every unknown value defaulting to 5), and ports
replaced by absolute values. -/
def PrepareFeaturesSpec (df : RawFrame) : Prop :=
  (exceptIsOk (prepare_features df) = false ↔
    ∃ c ∈ requiredFeatureColumns, c ∉ frameCols df) ∧
  ∀ out, prepare_features df = .ok out →
    out.protocol = (getCol df "protocol").map (fun v =>
      Val.num (if v = .str "TCP" then 1 else if v = .str "UDP" then 2
        else if v = .str "ICMP" then 3 else if v = .str "IGMP" then 4 else 5)) ∧
    out.src_port = (getCol df "src_port").map absCell ∧
    out.dst_port = (getCol df "dst_port").map absCell ∧
    out.bytes_in = getCol df "bytes_in" ∧
    out.bytes_out = getCol df "bytes_out" ∧
    out.packets_in = getCol df "packets_in" ∧
    out.packets_out = getCol df "packets_out" ∧
    out.duration = getCol df "duration"

/-- The protocol cell transformation of the source (dictionary `.map` plus
`.fillna(5)`) agrees with the spec's case chain. -/
lemma mapProtocolCell_eq_chain (v : Val) :
    mapProtocolCell v =
      Val.num (if v = .str "TCP" then 1 else if v = .str "UDP" then 2
        else if v = .str "ICMP" then 3 else if v = .str "IGMP" then 4 else 5) := by
  rcases v with q | s
  · simp [mapProtocolCell]
  · by_cases h1 : s = "TCP"
    · subst h1; rfl
    · by_cases h2 : s = "UDP"
      · subst h2; rfl
      · by_cases h3 : s = "ICMP"
        · subst h3; rfl
        · by_cases h4 : s = "IGMP"
          · subst h4; rfl
          · by_cases h5 : s = "OTHER"
            · subst h5; rfl
            · have e1 : (s == "TCP") = false := by simp [h1]
              have e2 : (s == "UDP") = false := by simp [h2]
              have e3 : (s == "ICMP") = false := by simp [h3]
              have e4 : (s == "IGMP") = false := by simp [h4]
              have e5 : (s == "OTHER") = false := by simp [h5]
              simp [mapProtocolCell, protocolMap, List.lookup, e1, e2, e3, e4, e5, h1, h2, h3, h4]

/-- C4: `prepare_features` fails if and only if one of the eight required
columns is absent; on success the protocol column is mapped through the fixed
dictionary {TCP 1, UDP 2, ICMP 3, IGMP 4, OTHER 5} with every unknown value
defaulting to 5, and the port columns are replaced by their absolute values. -/
theorem prepare_features_correct (df : RawFrame) : PrepareFeaturesSpec df := by
  unfold PrepareFeaturesSpec
  constructor
  · by_cases h : requiredFeatureColumns.filter (fun c => !((frameCols df).contains c)) = []
    · have hok : exceptIsOk (prepare_features df) = true := by
        unfold prepare_features exceptIsOk
        rw [if_neg (by simpa using h)]
      rw [hok]
      refine ⟨fun hh => absurd hh (by simp), fun hex => ?_⟩
      rcases hex with ⟨c, hc, hnot⟩
      rw [List.filter_eq_nil_iff] at h
      exact (hnot (by simpa using h c hc)).elim
    · have herr : exceptIsOk (prepare_features df) = false := by
        unfold prepare_features exceptIsOk
        rw [if_pos (by simpa using h)]
      rw [herr]
      refine ⟨fun _ => ?_, fun _ => rfl⟩
      rcases List.exists_mem_of_ne_nil _ h with ⟨c, hc⟩
      rw [List.mem_filter] at hc
      exact ⟨c, hc.1, by simpa using hc.2⟩
  · intro out hout
    simp only [prepare_features] at hout
    split at hout
    · simp at hout
    · have h := Except.ok.inj hout
      subst h
      refine ⟨?_, rfl, rfl, rfl, rfl, rfl, rfl, rfl⟩
      dsimp only
      exact List.map_congr_left (fun v _ => mapProtocolCell_eq_chain v)

/-- Witness for C4: a complete concrete frame with an unknown protocol string
and a negative source port is accepted and transformed as stated, and the
characterization applies to it. -/
theorem prepare_features_correct_witness :
    PrepareFeaturesSpec
      [("bytes_in", [Val.num 1]), ("bytes_out", [Val.num 2]),
        ("packets_in", [Val.num 3]), ("packets_out", [Val.num 4]),
        ("duration", [Val.num 5]), ("src_port", [Val.num (-22)]),
        ("dst_port", [Val.num 80]), ("protocol", [Val.str "tcp"])] ∧
    prepare_features
      [("bytes_in", [Val.num 1]), ("bytes_out", [Val.num 2]),
        ("packets_in", [Val.num 3]), ("packets_out", [Val.num 4]),
        ("duration", [Val.num 5]), ("src_port", [Val.num (-22)]),
        ("dst_port", [Val.num 80]), ("protocol", [Val.str "tcp"])] =
      .ok ⟨[Val.num 1], [Val.num 2], [Val.num 3], [Val.num 4], [Val.num 5],
        [Val.num 22], [Val.num 80], [Val.num 5]⟩ :=
  ⟨prepare_features_correct _, by rfl⟩

/-- A row of a purely numeric frame. -/
abbrev Row := List ℚ

/-- Ascending insertion sort, the order statistics pandas quantiles read. -/
def insertAsc (x : ℚ) : List ℚ → List ℚ
  | [] => [x]
  | y :: ys => if x ≤ y then x :: y :: ys else y :: insertAsc x ys

/-- Sort a column ascending. -/
def sortAsc (xs : List ℚ) : List ℚ := xs.foldr insertAsc []

/-- pandas `Series.quantile(q)` with its default linear interpolation: the
value at position q·(n−1) of the ascending order statistics, linearly
interpolated between the two neighbours.  On an empty series pandas yields
NaN, with which every comparison is False, so no row is flagged; the
embedding returns 0, which equally flags no row of an empty frame. -/
def quantileLin (q : ℚ) (xs : List ℚ) : ℚ :=
  let s := sortAsc xs
  let n := s.length
  if n = 0 then 0
  else
    let pos : ℚ := q * ((n : ℚ) - 1)
    let l : ℕ := pos.floor.toNat
    let fr : ℚ := pos - (l : ℚ)
    if l + 1 < n then s.getD l 0 + fr * (s.getD (l + 1) 0 - s.getD l 0)
    else s.getD l 0

/-- One column pass of `FlowPreprocessor.detect_feature_outliers`
(`preprocessing.py` lines 168-188): IQR bounds computed from the current
(already partially cleaned) frame, counting the out-of-bound rows, and
removing them when the threshold is at least 3.0. -/
def outlierColumnStep (threshold : ℚ) (rows : List Row) (j : ℕ) : List Row :=
  let colv := rows.map (fun r => r.getD j 0)
  let q1 := quantileLin (1/4) colv
  let q3 := quantileLin (3/4) colv
  let iqr := q3 - q1
  let lower := q1 - threshold * iqr
  let upper := q3 + threshold * iqr
  if 3 ≤ threshold then
    rows.filter (fun r => !(decide (r.getD j 0 < lower) || decide (upper < r.getD j 0)))
  else rows

/-- Embedding of `FlowPreprocessor.detect_feature_outliers` (`preprocessing.py`
lines 149-203) on an all-numeric frame of `ncols` columns.  The columns are
processed left to right, each against the frame as cleaned so far.  After the
loop the `removal_percentage` statistic divides by the initial row count
(plain Python integers), so a frame with no rows raises ZeroDivisionError. -/
def detect_feature_outliers (ncols : ℕ) (threshold : ℚ) (df : List Row) :
    Except String (List Row) :=
  let cleaned := (List.range ncols).foldl (outlierColumnStep threshold) df
  if df.length = 0 then .error "ZeroDivisionError"
  else .ok cleaned

lemma outlierColumnStep_length_le (t : ℚ) (rows : List Row) (j : ℕ) :
    (outlierColumnStep t rows j).length ≤ rows.length := by
  unfold outlierColumnStep
  split
  · exact List.length_filter_le _ _
  · exact le_refl _

lemma foldl_outlierColumnStep_length_le (t : ℚ) :
    ∀ (l : List ℕ) (rows : List Row),
      (l.foldl (outlierColumnStep t) rows).length ≤ rows.length := by
  intro l
  induction l with
  | nil => intro rows; exact le_refl _
  | cons a l ih =>
    intro rows
    exact le_trans (ih (outlierColumnStep t rows a)) (outlierColumnStep_length_le t rows a)

lemma outlierColumnStep_lt_three (t : ℚ) (ht : t < 3) (rows : List Row) (j : ℕ) :
    outlierColumnStep t rows j = rows := by
  unfold outlierColumnStep
  exact if_neg (not_le.mpr ht)

lemma foldl_outlierColumnStep_lt_three (t : ℚ) (ht : t < 3) :
    ∀ (l : List ℕ) (rows : List Row), l.foldl (outlierColumnStep t) rows = rows := by
  intro l
  induction l with
  | nil => intro rows; rfl
  | cons a l ih =>
    intro rows
    rw [List.foldl_cons, outlierColumnStep_lt_three t ht rows a]
    exact ih rows

/-- C3 counterexample: on the empty numeric frame (one numeric column, zero
rows) and threshold 1 < 3.0, `detect_feature_outliers` raises
ZeroDivisionError (the removal percentage divides by the initial row count)
instead of returning the frame unchanged as the claim states. -/
theorem detect_feature_outliers_empty_raises :
    detect_feature_outliers 1 1 [] = .error "ZeroDivisionError" := rfl

/-- C3 (amended): for every NONEMPTY numeric frame and every threshold,
`detect_feature_outliers` returns a frame whose row count never exceeds the
input's, and when the threshold is below 3.0 it returns exactly the input's
rows; an empty frame instead raises ZeroDivisionError. -/
theorem detect_feature_outliers_correct (ncols : ℕ) (threshold : ℚ) (df : List Row)
    (hne : df ≠ []) :
    ∃ r, detect_feature_outliers ncols threshold df = .ok r ∧
      r.length ≤ df.length ∧ (threshold < 3 → r = df) := by
  refine ⟨(List.range ncols).foldl (outlierColumnStep threshold) df, ?_, ?_, ?_⟩
  · unfold detect_feature_outliers
    rw [if_neg (by simpa [List.length_eq_zero] using hne)]
  · exact foldl_outlierColumnStep_length_le threshold (List.range ncols) df
  · intro ht
    exact foldl_outlierColumnStep_lt_three threshold ht (List.range ncols) df

/-- Witness for C3's amended theorem at a concrete two-row frame. -/
theorem detect_feature_outliers_correct_witness :
    (([[ (1 : ℚ)], [100]] : List Row) ≠ []) ∧
    (∃ r, detect_feature_outliers 1 (1/2) [[(1 : ℚ)], [100]] = .ok r ∧
      r.length ≤ ([[(1 : ℚ)], [100]] : List Row).length ∧
      ((1 : ℚ)/2 < 3 → r = [[(1 : ℚ)], [100]])) :=
  ⟨by decide, detect_feature_outliers_correct 1 (1/2) [[(1 : ℚ)], [100]] (by decide)⟩

/-- `np.linspace(min_contamination, max_contamination, 10)`: the ten equally
spaced sample points of the configured contamination range
(`preprocessing.py` line 225). -/
def linspace10 (lo hi : ℚ) : List ℚ :=
  (List.range 10).map (fun (i : ℕ) => lo + (hi - lo) * (i : ℚ) / 9)

/-- Loop state of `tune_contamination_parameter`: best contamination and best
score so far, plus the per-candidate score log. -/
structure ContamState where
  best_contamination : ℚ
  best_score : ℚ
  scores : List (ℚ × ℚ)
deriving DecidableEq, Repr

/-- One candidate evaluation of `tune_contamination_parameter`
(`preprocessing.py` lines 230-262): score the candidate by cross-validation —
any exception is caught, logged and skipped — record the score, and keep the
candidate when its mean score strictly beats the best so far. -/
def contamStep (cvScore : ℚ → Except String ℚ) (st : ContamState) (c : ℚ) : ContamState :=
  match cvScore c with
  | .error _ => st
  | .ok s =>
    if st.best_score < s then ⟨c, s, st.scores ++ [(c, s)]⟩
    else ⟨st.best_contamination, st.best_score, st.scores ++ [(c, s)]⟩

/-- Embedding of `FlowPreprocessor.tune_contamination_parameter`
(`preprocessing.py` lines 205-286), parameterized by the black-box
per-candidate cross-validation scorer (in the source, `cross_val_score` of an
IsolationForest over the input frame; the spec treats that scoring as
best-effort).  `best_contamination` starts at the range minimum and
`best_score` at 0.0; the source's trailing `if best_contamination is None`
fallback is unreachable because of that initialisation. -/
def tune_contamination_parameter (cvScore : ℚ → Except String ℚ) (lo hi : ℚ) :
    ℚ × ContamState :=
  let final := (linspace10 lo hi).foldl (contamStep cvScore) ⟨lo, 0, []⟩
  (final.best_contamination, final)

lemma mem_linspace10_bounds (lo hi : ℚ) (hle : lo ≤ hi) :
    ∀ c ∈ linspace10 lo hi, lo ≤ c ∧ c ≤ hi := by
  intro c hc
  unfold linspace10 at hc
  rw [List.mem_map] at hc
  obtain ⟨i, hilt, rfl⟩ := hc
  rw [List.mem_range] at hilt
  have h9 : (i : ℚ) ≤ 9 := by
    have h9n : i ≤ 9 := Nat.lt_succ_iff.mp hilt
    exact_mod_cast h9n
  have h0 : (0 : ℚ) ≤ (i : ℚ) := Nat.cast_nonneg i
  have hd : 0 ≤ hi - lo := by linarith
  constructor
  · nlinarith [mul_nonneg hd h0]
  · nlinarith [mul_nonneg hd (by linarith : (0 : ℚ) ≤ 9 - (i : ℚ))]

lemma contamStep_best_cases (cv : ℚ → Except String ℚ) (st : ContamState) (a : ℚ) :
    (contamStep cv st a).best_contamination = a ∨
      (contamStep cv st a).best_contamination = st.best_contamination := by
  cases hcv : cv a with
  | error e => simp [contamStep, hcv]
  | ok s =>
    simp only [contamStep, hcv]
    split
    · exact Or.inl rfl
    · exact Or.inr rfl

lemma foldl_contamStep_bounds (cv : ℚ → Except String ℚ) (lo hi : ℚ) :
    ∀ (l : List ℚ) (st : ContamState),
      (∀ c ∈ l, lo ≤ c ∧ c ≤ hi) →
      lo ≤ st.best_contamination → st.best_contamination ≤ hi →
      lo ≤ (l.foldl (contamStep cv) st).best_contamination ∧
        (l.foldl (contamStep cv) st).best_contamination ≤ hi := by
  intro l
  induction l with
  | nil => intro st _ h1 h2; exact ⟨h1, h2⟩
  | cons a l ih =>
    intro st hmem h1 h2
    rw [List.foldl_cons]
    have ha := hmem a (List.mem_cons_self a l)
    have hrest : ∀ c ∈ l, lo ≤ c ∧ c ≤ hi := fun c hc => hmem c (List.mem_cons_of_mem a hc)
    rcases contamStep_best_cases cv st a with hbc | hbc
    · refine ih (contamStep cv st a) hrest ?_ ?_
      · rw [hbc]; exact ha.1
      · rw [hbc]; exact ha.2
    · refine ih (contamStep cv st a) hrest ?_ ?_
      · rw [hbc]; exact h1
      · rw [hbc]; exact h2

lemma foldl_contamStep_fallback (cv : ℚ → Except String ℚ) (lo : ℚ)
    (hall : ∀ c s, cv c = .ok s → s ≤ 0) :
    ∀ (l : List ℚ) (st : ContamState),
      st.best_contamination = lo → st.best_score = 0 →
      (l.foldl (contamStep cv) st).best_contamination = lo := by
  intro l
  induction l with
  | nil => intro st h1 _; exact h1
  | cons a l ih =>
    intro st h1 h2
    rw [List.foldl_cons]
    cases hcv : cv a with
    | error e =>
      have hst : contamStep cv st a = st := by simp [contamStep, hcv]
      rw [hst]
      exact ih st h1 h2
    | ok s =>
      have hs : s ≤ 0 := hall a s hcv
      have hnot : ¬ st.best_score < s := by rw [h2]; linarith
      have hst : contamStep cv st a =
          ⟨st.best_contamination, st.best_score, st.scores ++ [(a, s)]⟩ := by
        simp [contamStep, hcv, hnot]
      rw [hst]
      exact ih _ h1 h2

lemma foldl_contamStep_skips (cv : ℚ → Except String ℚ) (v : ℚ) (e : String)
    (hv : cv v = .error e) (l1 l2 : List ℚ) (st : ContamState) :
    (l1 ++ v :: l2).foldl (contamStep cv) st = (l1 ++ l2).foldl (contamStep cv) st := by
  rw [List.foldl_append, List.foldl_append, List.foldl_cons]
  have hid : contamStep cv (l1.foldl (contamStep cv) st) v =
      l1.foldl (contamStep cv) st := by
    simp [contamStep, hv]
  rw [hid]

/-- C6: for every scorer (hence every input frame), the auto-tuner's result
always lies within the configured contamination range; if no candidate's mean
cross-validation score ever beats the initial baseline score 0.0, it returns
the range minimum; and a candidate whose scoring raises is skipped, the fold
continuing over the remaining candidates exactly as if the candidate were
absent. -/
theorem tune_contamination_correct (cv : ℚ → Except String ℚ) (lo hi : ℚ)
    (hle : lo ≤ hi) :
    (lo ≤ (tune_contamination_parameter cv lo hi).1 ∧
      (tune_contamination_parameter cv lo hi).1 ≤ hi) ∧
    ((∀ c s, cv c = .ok s → s ≤ 0) → (tune_contamination_parameter cv lo hi).1 = lo) ∧
    (∀ (v : ℚ) (e : String), cv v = .error e →
      ∀ (l1 l2 : List ℚ) (st : ContamState),
        (l1 ++ v :: l2).foldl (contamStep cv) st = (l1 ++ l2).foldl (contamStep cv) st) := by
  refine ⟨?_, ?_, ?_⟩
  · exact foldl_contamStep_bounds cv lo hi (linspace10 lo hi) ⟨lo, 0, []⟩
      (mem_linspace10_bounds lo hi hle) (le_refl lo) hle
  · intro hall
    exact foldl_contamStep_fallback cv lo hall (linspace10 lo hi) ⟨lo, 0, []⟩ rfl rfl
  · intro v e hv l1 l2 st
    exact foldl_contamStep_skips cv v e hv l1 l2 st

/-- A cross-validation scorer that always raises: exactly what the source's
`scoring='neg_mean_score'` (an invalid sklearn scoring name) produces on
every candidate. -/
def cvAlwaysRaises : ℚ → Except String ℚ :=
  fun _ => .error "neg_mean_score is not a valid scoring value"

/-- Witness for C6 on the always-raising scorer over the range [1/100, 1/10]. -/
theorem tune_contamination_correct_witness :
    ((1 : ℚ)/100 ≤ 1/10) ∧
    (((1 : ℚ)/100 ≤ (tune_contamination_parameter cvAlwaysRaises (1/100) (1/10)).1 ∧
      (tune_contamination_parameter cvAlwaysRaises (1/100) (1/10)).1 ≤ 1/10) ∧
    ((∀ c s, cvAlwaysRaises c = .ok s → s ≤ 0) →
      (tune_contamination_parameter cvAlwaysRaises (1/100) (1/10)).1 = 1/100) ∧
    (∀ (v : ℚ) (e : String), cvAlwaysRaises v = .error e →
      ∀ (l1 l2 : List ℚ) (st : ContamState),
        (l1 ++ v :: l2).foldl (contamStep cvAlwaysRaises) st =
          (l1 ++ l2).foldl (contamStep cvAlwaysRaises) st)) :=
  ⟨by norm_num, tune_contamination_correct cvAlwaysRaises (1/100) (1/10) (by norm_num)⟩

/-- A guarded count ratio is nonnegative. -/
lemma guardedRatio_nonneg (a b : ℕ) :
    0 ≤ (if a + b ≠ 0 then (a : ℚ) / ((a : ℚ) + (b : ℚ)) else 0) := by
  split
  · positivity
  · exact le_refl 0

/-- A guarded count ratio is at most one. -/
lemma guardedRatio_le_one (a b : ℕ) :
    (if a + b ≠ 0 then (a : ℚ) / ((a : ℚ) + (b : ℚ)) else 0) ≤ 1 := by
  split
  · rename_i h
    have hd : (0 : ℚ) < (a : ℚ) + (b : ℚ) := by
      have h' : 0 < a + b := Nat.pos_of_ne_zero h
      exact_mod_cast h'
    rw [div_le_one hd]
    have hb : (0 : ℚ) ≤ (b : ℚ) := by positivity
    linarith
  · exact zero_le_one

lemma precisionOf_nonneg (yt yp : List Bool) : 0 ≤ precisionOf yt yp :=
  guardedRatio_nonneg _ _

lemma precisionOf_le_one (yt yp : List Bool) : precisionOf yt yp ≤ 1 :=
  guardedRatio_le_one _ _

lemma recallOf_nonneg (yt yp : List Bool) : 0 ≤ recallOf yt yp :=
  guardedRatio_nonneg _ _

lemma recallOf_le_one (yt yp : List Bool) : recallOf yt yp ≤ 1 :=
  guardedRatio_le_one _ _

lemma fprOf_nonneg (yt yp : List Bool) : 0 ≤ fprOf yt yp :=
  guardedRatio_nonneg _ _

lemma fprOf_le_one (yt yp : List Bool) : fprOf yt yp ≤ 1 :=
  guardedRatio_le_one _ _

lemma f1Of_nonneg (yt yp : List Bool) : 0 ≤ f1Of yt yp := by
  unfold f1Of
  split
  · rename_i h
    have hp := precisionOf_nonneg yt yp
    have hr := recallOf_nonneg yt yp
    have hpr : 0 < precisionOf yt yp + recallOf yt yp :=
      lt_of_le_of_ne (by linarith) (Ne.symm h)
    have hnum : 0 ≤ 2 * precisionOf yt yp * recallOf yt yp := by positivity
    exact div_nonneg hnum (le_of_lt hpr)
  · exact le_refl 0

lemma f1Of_le_one (yt yp : List Bool) : f1Of yt yp ≤ 1 := by
  unfold f1Of
  split
  · rename_i h
    have hp := precisionOf_nonneg yt yp
    have hr := recallOf_nonneg yt yp
    have hp1 := precisionOf_le_one yt yp
    have hr1 := recallOf_le_one yt yp
    have hpr : 0 < precisionOf yt yp + recallOf yt yp :=
      lt_of_le_of_ne (by linarith) (Ne.symm h)
    rw [div_le_one hpr]
    nlinarith [mul_nonneg (by linarith : (0 : ℚ) ≤ 1 - precisionOf yt yp) hr,
      mul_nonneg hp (by linarith : (0 : ℚ) ≤ 1 - recallOf yt yp)]
  · exact zero_le_one

/-- The black-box sklearn capabilities `tune_iforest` calls, as explicit
deterministic functions: the spec treats the anomaly-scoring ensemble as a
black box, and with `n_jobs=1` and a fixed `random_state` every call in the
source is a pure function of its arguments. -/
structure SKOps where
  /-- `np.log1p` on one cell (`make_X`). -/
  log1p : ℚ → ℚ
  /-- The `StandardScaler` fitted on the first argument transforming the
  second argument. -/
  transform : List Row → List Row → List Row
  /-- `IsolationForest(n_estimators, contamination, random_state).fit(Xtrain)`
  then `.predict(Xval) == -1`: the per-row outlier decision. -/
  predictOutlier : ℕ → ℚ → ℤ → List Row → List Row → List Bool

/-- `make_X` (`scripts/train_nsl_kdd.py` lines 189-192): the feature matrix
with `log1p` applied cell-wise to stabilise heavy tails. -/
def makeX (ops : SKOps) (df : List Row) : List Row :=
  df.map (fun r => r.map ops.log1p)

/-- A fitted IsolationForest, represented by the data that (with the fixed
seed) determines it. -/
structure ForestRep where
  n_estimators : ℕ
  contamination : ℚ
  random_state : ℤ
  fitData : List Row
deriving DecidableEq, Repr

/-- The quadruple returned by `tune_iforest`: the winning fitted model, the
fitted scaler (represented by its fit data), the winning hyperparameters
(contamination, n_estimators) and the winning validation metrics. -/
structure TuneResult where
  model : ForestRep
  scaler : List Row
  best_params : ℚ × ℕ
  metrics : Metrics
deriving DecidableEq, Repr

/-- Python tuple comparison `key > best_key` on (precision, F1) keys
(`train_nsl_kdd.py` line 233). -/
def keyGt (a b : ℚ × ℚ) : Bool :=
  decide (b.1 < a.1) || (decide (b.1 = a.1) && decide (b.2 < a.2))

/-- Strict lexicographic order on (precision, F1) keys: the Python tuple `<`. -/
def KeyLt (a b : ℚ × ℚ) : Prop := a.1 < b.1 ∨ (a.1 = b.1 ∧ a.2 < b.2)

lemma keyGt_eq_true_iff (a b : ℚ × ℚ) : keyGt a b = true ↔ KeyLt b a := by
  unfold keyGt KeyLt
  simp [Bool.or_eq_true, Bool.and_eq_true, decide_eq_true_eq]

lemma keyLt_irrefl (a : ℚ × ℚ) : ¬ KeyLt a a := by
  unfold KeyLt
  rintro (h | ⟨_, h⟩) <;> exact lt_irrefl _ h

lemma keyLt_trans {a b c : ℚ × ℚ} : KeyLt a b → KeyLt b c → KeyLt a c := by
  unfold KeyLt
  rintro (h1 | ⟨e1, h1⟩) (h2 | ⟨e2, h2⟩)
  · exact Or.inl (lt_trans h1 h2)
  · exact Or.inl (by rw [← e2]; exact h1)
  · exact Or.inl (by rw [e1]; exact h2)
  · exact Or.inr ⟨e1.trans e2, lt_trans h1 h2⟩

lemma keyLt_asymm {a b : ℚ × ℚ} (h : KeyLt a b) : ¬ KeyLt b a :=
  fun h' => keyLt_irrefl a (keyLt_trans h h')

lemma keyLt_total (a b : ℚ × ℚ) : KeyLt a b ∨ a = b ∨ KeyLt b a := by
  unfold KeyLt
  rcases lt_trichotomy a.1 b.1 with h | h | h
  · exact Or.inl (Or.inl h)
  · rcases lt_trichotomy a.2 b.2 with h2 | h2 | h2
    · exact Or.inl (Or.inr ⟨h, h2⟩)
    · exact Or.inr (Or.inl (Prod.ext h h2))
    · exact Or.inr (Or.inr (Or.inr ⟨h.symm, h2⟩))
  · exact Or.inr (Or.inr (Or.inl h))

lemma eq_or_keyLt_of_not_keyLt {a b : ℚ × ℚ} (h : ¬ KeyLt a b) :
    b = a ∨ KeyLt b a := by
  rcases keyLt_total a b with h1 | h1 | h1
  · exact absurd h1 h
  · exact Or.inl h1.symm
  · exact Or.inr h1

/-- The candidate list of the nested tuning loops, in iteration order:
contamination grid outer, ensemble-size grid inner. -/
def tuneCands (cg : List ℚ) (ng : List ℕ) : List (ℚ × ℕ) :=
  cg.flatMap (fun c => ng.map (fun n => (c, n)))

/-- Validation metrics of one (contamination, n_estimators) candidate
(`train_nsl_kdd.py` lines 214-230): fit the scaler on the training matrix,
fit the forest, score the validation matrix and evaluate. -/
def candMetrics (ops : SKOps) (XtrainRaw XvalRaw : List Row) (valLabels : List Bool)
    (seed : ℤ) (cn : ℚ × ℕ) : Metrics :=
  compute_metrics valLabels
    (ops.predictOutlier cn.2 cn.1 seed
      (ops.transform XtrainRaw XtrainRaw) (ops.transform XtrainRaw XvalRaw))

/-- The (precision, F1) selection key of one candidate
(`train_nsl_kdd.py` line 231). -/
def candKey (ops : SKOps) (XtrainRaw XvalRaw : List Row) (valLabels : List Bool)
    (seed : ℤ) (cn : ℚ × ℕ) : ℚ × ℚ :=
  ((candMetrics ops XtrainRaw XvalRaw valLabels seed cn).precision,
    (candMetrics ops XtrainRaw XvalRaw valLabels seed cn).f1)

/-- The result quadruple a winning candidate contributes
(`train_nsl_kdd.py` lines 234-241). -/
def candResult (ops : SKOps) (XtrainRaw XvalRaw : List Row) (valLabels : List Bool)
    (seed : ℤ) (cn : ℚ × ℕ) : TuneResult :=
  ⟨⟨cn.2, cn.1, seed, ops.transform XtrainRaw XtrainRaw⟩, XtrainRaw, (cn.1, cn.2),
    candMetrics ops XtrainRaw XvalRaw valLabels seed cn⟩

/-- Loop state of the tuning grid search: current best key and (optional)
current best quadruple. -/
structure TuneState where
  best_key : ℚ × ℚ
  best : Option TuneResult
deriving DecidableEq, Repr

/-- One iteration of the tuning grid loop (`train_nsl_kdd.py` lines 212-241).
`StandardScaler.fit_transform` raises sklearn's ValueError on an empty sample
set; otherwise the candidate is evaluated and recorded exactly when its
(precision, F1) key strictly exceeds the best key so far under Python tuple
comparison — so ties keep the earlier candidate. -/
def tuneStep (ops : SKOps) (XtrainRaw XvalRaw : List Row) (valLabels : List Bool)
    (seed : ℤ) (st : TuneState) (cn : ℚ × ℕ) : Except String TuneState :=
  if XtrainRaw.isEmpty then
    .error "ValueError: Found array with 0 sample(s)"
  else if keyGt (candKey ops XtrainRaw XvalRaw valLabels seed cn) st.best_key then
    .ok ⟨candKey ops XtrainRaw XvalRaw valLabels seed cn,
      some (candResult ops XtrainRaw XvalRaw valLabels seed cn)⟩
  else .ok st

/-- The same iteration without the (impossible, once the training matrix is
nonempty) error path, over abstract key and result functions. -/
def tuneStepP (f : ℚ × ℕ → ℚ × ℚ) (g : ℚ × ℕ → TuneResult)
    (st : TuneState) (cn : ℚ × ℕ) : TuneState :=
  if keyGt (f cn) st.best_key then ⟨f cn, some (g cn)⟩ else st

/-- Embedding of `tune_iforest` (`scripts/train_nsl_kdd.py` lines 195-248):
nested loops over the contamination grid (outer) and the ensemble-size grid
(inner), starting from `best_key = (-1.0, -1.0)` and no recorded candidate;
the four trailing `assert ... is not None` raise AssertionError when no
candidate was recorded. -/
def tune_iforest (ops : SKOps) (normal_train validation : List Row)
    (valLabels : List Bool) (contamination_grid : List ℚ)
    (n_estimators_grid : List ℕ) (random_state : ℤ) : Except String TuneResult := do
  let XtrainRaw := makeX ops normal_train
  let XvalRaw := makeX ops validation
  let final ← (tuneCands contamination_grid n_estimators_grid).foldlM
    (tuneStep ops XtrainRaw XvalRaw valLabels random_state) ⟨(-1, -1), none⟩
  match final.best with
  | none => .error "AssertionError"
  | some r => pure r

lemma makeX_ne_nil (ops : SKOps) {nt : List Row} (h : nt ≠ []) : makeX ops nt ≠ [] := by
  simpa [makeX, List.map_eq_nil_iff] using h

lemma tuneCands_ne_nil {cg : List ℚ} {ng : List ℕ} (hcg : cg ≠ []) (hng : ng ≠ []) :
    tuneCands cg ng ≠ [] := by
  obtain ⟨c, cg', rfl⟩ := List.exists_cons_of_ne_nil hcg
  obtain ⟨n, ng', rfl⟩ := List.exists_cons_of_ne_nil hng
  simp [tuneCands]

lemma candKey_fst_nonneg (ops : SKOps) (X Y : List Row) (vl : List Bool)
    (seed : ℤ) (cn : ℚ × ℕ) : 0 ≤ (candKey ops X Y vl seed cn).1 :=
  precisionOf_nonneg _ _

lemma candKey_snd_nonneg (ops : SKOps) (X Y : List Row) (vl : List Bool)
    (seed : ℤ) (cn : ℚ × ℕ) : 0 ≤ (candKey ops X Y vl seed cn).2 :=
  f1Of_nonneg _ _

lemma keyLt_init_candKey (ops : SKOps) (X Y : List Row) (vl : List Bool)
    (seed : ℤ) (cn : ℚ × ℕ) : KeyLt (-1, -1) (candKey ops X Y vl seed cn) :=
  Or.inl (lt_of_lt_of_le (by norm_num) (candKey_fst_nonneg ops X Y vl seed cn))

lemma foldlM_tuneStep_ok (ops : SKOps) (XtrainRaw XvalRaw : List Row)
    (valLabels : List Bool) (seed : ℤ) (hne : XtrainRaw ≠ []) :
    ∀ (l : List (ℚ × ℕ)) (st : TuneState),
      l.foldlM (tuneStep ops XtrainRaw XvalRaw valLabels seed) st =
        .ok (l.foldl
          (tuneStepP (candKey ops XtrainRaw XvalRaw valLabels seed)
            (candResult ops XtrainRaw XvalRaw valLabels seed)) st) := by
  intro l
  induction l with
  | nil => intro st; rfl
  | cons a l ih =>
    intro st
    rw [List.foldlM_cons, List.foldl_cons]
    have hstep : tuneStep ops XtrainRaw XvalRaw valLabels seed st a =
        .ok (tuneStepP (candKey ops XtrainRaw XvalRaw valLabels seed)
          (candResult ops XtrainRaw XvalRaw valLabels seed) st a) := by
      unfold tuneStep tuneStepP
      rw [if_neg (by simpa [List.isEmpty_iff] using hne)]
      by_cases hk : keyGt (candKey ops XtrainRaw XvalRaw valLabels seed a) st.best_key = true
      · rw [if_pos hk, if_pos hk]
      · rw [if_neg hk, if_neg hk]
    rw [hstep]
    show (l.foldlM (tuneStep ops XtrainRaw XvalRaw valLabels seed) _) = _
    exact ih _

lemma foldl_tuneStepP_char (f : ℚ × ℕ → ℚ × ℚ) (g : ℚ × ℕ → TuneResult) :
    ∀ (l : List (ℚ × ℕ)) (k0 : ℚ × ℚ) (b0 : Option TuneResult),
      (l.foldl (tuneStepP f g) ⟨k0, b0⟩ = ⟨k0, b0⟩ ∧
        ∀ j, j < l.length → ¬ KeyLt k0 (f (l.getD j (0, 0)))) ∨
      (∃ i, i < l.length ∧
        l.foldl (tuneStepP f g) ⟨k0, b0⟩ =
          ⟨f (l.getD i (0, 0)), some (g (l.getD i (0, 0)))⟩ ∧
        KeyLt k0 (f (l.getD i (0, 0))) ∧
        (∀ j, j < l.length → ¬ KeyLt (f (l.getD i (0, 0))) (f (l.getD j (0, 0)))) ∧
        (∀ j, j < i → KeyLt (f (l.getD j (0, 0))) (f (l.getD i (0, 0))))) := by
  intro l
  induction l with
  | nil =>
    intro k0 b0
    exact Or.inl ⟨rfl, fun j hj => absurd hj (Nat.not_lt_zero j)⟩
  | cons a l ih =>
    intro k0 b0
    rw [List.foldl_cons]
    by_cases hbeat : keyGt (f a) k0 = true
    · have hstep : tuneStepP f g ⟨k0, b0⟩ a = ⟨f a, some (g a)⟩ := by
        unfold tuneStepP
        dsimp only
        rw [if_pos hbeat]
      rw [hstep]
      have hlt : KeyLt k0 (f a) := (keyGt_eq_true_iff _ _).mp hbeat
      rcases ih (f a) (some (g a)) with ⟨heq, hall⟩ | ⟨i, hi, heq, hk0, hmax, hfirst⟩
      · refine Or.inr ⟨0, Nat.succ_pos _, heq, hlt, ?_, ?_⟩
        · intro j hj
          cases j with
          | zero => exact keyLt_irrefl _
          | succ j => exact hall j (by simpa using hj)
        · intro j hj
          exact absurd hj (Nat.not_lt_zero j)
      · refine Or.inr ⟨i + 1, by simpa using hi, heq, keyLt_trans hlt hk0, ?_, ?_⟩
        · intro j hj
          cases j with
          | zero => exact keyLt_asymm hk0
          | succ j => exact hmax j (by simpa using hj)
        · intro j hj
          cases j with
          | zero => exact hk0
          | succ j => exact hfirst j (by omega)
    · have hstep : tuneStepP f g ⟨k0, b0⟩ a = ⟨k0, b0⟩ := by
        unfold tuneStepP
        dsimp only
        rw [if_neg hbeat]
      rw [hstep]
      have hnlt : ¬ KeyLt k0 (f a) := fun h => hbeat ((keyGt_eq_true_iff _ _).mpr h)
      rcases ih k0 b0 with ⟨heq, hall⟩ | ⟨i, hi, heq, hk0, hmax, hfirst⟩
      · refine Or.inl ⟨heq, ?_⟩
        intro j hj
        cases j with
        | zero => exact hnlt
        | succ j => exact hall j (by simpa using hj)
      · refine Or.inr ⟨i + 1, by simpa using hi, heq, hk0, ?_, ?_⟩
        · intro j hj
          cases j with
          | zero =>
            intro hcon
            have hcon' : KeyLt (f (l.getD i (0, 0))) (f a) := hcon
            rcases eq_or_keyLt_of_not_keyLt hnlt with he | hl
            · rw [he] at hcon'
              exact keyLt_asymm hk0 hcon'
            · exact keyLt_irrefl _ (keyLt_trans (keyLt_trans hk0 hcon') hl)
          | succ j => exact hmax j (by simpa using hj)
        · intro j hj
          cases j with
          | zero =>
            show KeyLt (f a) (f (l.getD i (0, 0)))
            rcases eq_or_keyLt_of_not_keyLt hnlt with he | hl
            · rw [he]; exact hk0
            · exact keyLt_trans hl hk0
          | succ j => exact hfirst j (by omega)

/-- Core success characterization of `tune_iforest` on a nonempty training
frame and nonempty grids: the result is the candidate at the first index
achieving the lexicographically greatest (precision, F1) key over the
grid-ordered candidate list. -/
lemma tune_iforest_ok_char (ops : SKOps) (nt v : List Row) (vl : List Bool)
    (cg : List ℚ) (ng : List ℕ) (seed : ℤ)
    (hnt : nt ≠ []) (hcg : cg ≠ []) (hng : ng ≠ []) :
    ∃ i, i < (tuneCands cg ng).length ∧
      tune_iforest ops nt v vl cg ng seed =
        .ok (candResult ops (makeX ops nt) (makeX ops v) vl seed
          ((tuneCands cg ng).getD i (0, 0))) ∧
      (∀ j, j < (tuneCands cg ng).length →
        ¬ KeyLt
          (candKey ops (makeX ops nt) (makeX ops v) vl seed
            ((tuneCands cg ng).getD i (0, 0)))
          (candKey ops (makeX ops nt) (makeX ops v) vl seed
            ((tuneCands cg ng).getD j (0, 0)))) ∧
      (∀ j, j < i →
        KeyLt
          (candKey ops (makeX ops nt) (makeX ops v) vl seed
            ((tuneCands cg ng).getD j (0, 0)))
          (candKey ops (makeX ops nt) (makeX ops v) vl seed
            ((tuneCands cg ng).getD i (0, 0)))) := by
  have hXne : makeX ops nt ≠ [] := makeX_ne_nil ops hnt
  have hcands : tuneCands cg ng ≠ [] := tuneCands_ne_nil hcg hng
  have hlen : 0 < (tuneCands cg ng).length := List.length_pos.mpr hcands
  rcases foldl_tuneStepP_char
      (candKey ops (makeX ops nt) (makeX ops v) vl seed)
      (candResult ops (makeX ops nt) (makeX ops v) vl seed)
      (tuneCands cg ng) (-1, -1) none with
    ⟨heq, hall⟩ | ⟨i, hi, heq, hk0, hmax, hfirst⟩
  · exact absurd (keyLt_init_candKey ops (makeX ops nt) (makeX ops v) vl seed
      ((tuneCands cg ng).getD 0 (0, 0))) (hall 0 hlen)
  · refine ⟨i, hi, ?_, hmax, hfirst⟩
    show (do
      let final ← (tuneCands cg ng).foldlM
        (tuneStep ops (makeX ops nt) (makeX ops v) vl seed) ⟨(-1, -1), none⟩
      match final.best with
      | none => (Except.error "AssertionError" : Except String TuneResult)
      | some r => pure r) = _
    rw [foldlM_tuneStep_ok ops (makeX ops nt) (makeX ops v) vl seed hXne, heq]
    rfl

/-- A concrete `SKOps` instance for witnesses: identity log1p and transform,
and a scorer flagging every validation row as outlier. -/
def opsId : SKOps :=
  ⟨id, fun _ X => X, fun _ _ _ _ Xv => Xv.map (fun _ => true)⟩

/-- C1: for a nonempty training frame and nonempty ascending grids, the tuner
works through the candidate list in the fixed order contamination ascending
outer / ensemble size ascending inner (`tuneCands`, the grid order), and
returns exactly the candidate quadruple (model, scaler, hyperparameters,
metrics) of the first-encountered candidate whose (precision, F1) key is
lexicographically greatest: no candidate's key strictly exceeds the winner's,
and every earlier candidate's key lies strictly below it. -/
theorem tune_iforest_selects_first_lex_max (ops : SKOps) (nt v : List Row)
    (vl : List Bool) (cg : List ℚ) (ng : List ℕ) (seed : ℤ)
    (hnt : nt ≠ []) (hcg : cg ≠ []) (hng : ng ≠ [])
    (hcgs : cg.Sorted (· ≤ ·)) (hngs : ng.Sorted (· ≤ ·)) :
    ∃ i, i < (tuneCands cg ng).length ∧
      tune_iforest ops nt v vl cg ng seed =
        .ok (candResult ops (makeX ops nt) (makeX ops v) vl seed
          ((tuneCands cg ng).getD i (0, 0))) ∧
      (∀ j, j < (tuneCands cg ng).length →
        ¬ KeyLt
          (candKey ops (makeX ops nt) (makeX ops v) vl seed
            ((tuneCands cg ng).getD i (0, 0)))
          (candKey ops (makeX ops nt) (makeX ops v) vl seed
            ((tuneCands cg ng).getD j (0, 0)))) ∧
      (∀ j, j < i →
        KeyLt
          (candKey ops (makeX ops nt) (makeX ops v) vl seed
            ((tuneCands cg ng).getD j (0, 0)))
          (candKey ops (makeX ops nt) (makeX ops v) vl seed
            ((tuneCands cg ng).getD i (0, 0)))) :=
  tune_iforest_ok_char ops nt v vl cg ng seed hnt hcg hng

/-- Witness for C1 at a concrete run with ascending two-point grids. -/
theorem tune_iforest_selects_first_lex_max_witness :
    (([[1], [2]] : List Row) ≠ [] ∧ ([(1 : ℚ)/100, 1/50] : List ℚ) ≠ [] ∧
      ([100, 200] : List ℕ) ≠ [] ∧
      ([(1 : ℚ)/100, 1/50] : List ℚ).Sorted (· ≤ ·) ∧
      ([100, 200] : List ℕ).Sorted (· ≤ ·)) ∧
    (∃ i, i < (tuneCands [(1 : ℚ)/100, 1/50] [100, 200]).length ∧
      tune_iforest opsId [[1], [2]] [[1], [3]] [true, false]
          [(1 : ℚ)/100, 1/50] [100, 200] 42 =
        .ok (candResult opsId (makeX opsId [[1], [2]]) (makeX opsId [[1], [3]])
          [true, false] 42
          ((tuneCands [(1 : ℚ)/100, 1/50] [100, 200]).getD i (0, 0))) ∧
      (∀ j, j < (tuneCands [(1 : ℚ)/100, 1/50] [100, 200]).length →
        ¬ KeyLt
          (candKey opsId (makeX opsId [[1], [2]]) (makeX opsId [[1], [3]])
            [true, false] 42
            ((tuneCands [(1 : ℚ)/100, 1/50] [100, 200]).getD i (0, 0)))
          (candKey opsId (makeX opsId [[1], [2]]) (makeX opsId [[1], [3]])
            [true, false] 42
            ((tuneCands [(1 : ℚ)/100, 1/50] [100, 200]).getD j (0, 0)))) ∧
      (∀ j, j < i →
        KeyLt
          (candKey opsId (makeX opsId [[1], [2]]) (makeX opsId [[1], [3]])
            [true, false] 42
            ((tuneCands [(1 : ℚ)/100, 1/50] [100, 200]).getD j (0, 0)))
          (candKey opsId (makeX opsId [[1], [2]]) (makeX opsId [[1], [3]])
            [true, false] 42
            ((tuneCands [(1 : ℚ)/100, 1/50] [100, 200]).getD i (0, 0))))) :=
  ⟨⟨by decide, by decide, by decide, by with_unfolding_all decide,
      by with_unfolding_all decide⟩,
    tune_iforest_selects_first_lex_max opsId [[1], [2]] [[1], [3]] [true, false]
      [(1 : ℚ)/100, 1/50] [100, 200] 42 (by decide) (by decide) (by decide)
      (by with_unfolding_all decide) (by with_unfolding_all decide)⟩

/-- C9: two runs of `tune_iforest` with the same seed, the same training and
validation frames and the same grids yield identical results — in particular
identical selected hyperparameters and identical validation metrics.  The
embedding is a pure function because every sklearn call in the source is
seeded (`random_state`) and single-threaded (`n_jobs=1`). -/
theorem tune_iforest_deterministic (ops : SKOps) (nt v : List Row)
    (vl : List Bool) (cg : List ℚ) (ng : List ℕ) (seed : ℤ)
    (r1 r2 : Except String TuneResult)
    (h1 : r1 = tune_iforest ops nt v vl cg ng seed)
    (h2 : r2 = tune_iforest ops nt v vl cg ng seed) : r1 = r2 :=
  h1.trans h2.symm

/-- Witness for C9: the two (identical) concrete runs coincide. -/
theorem tune_iforest_deterministic_witness :
    tune_iforest opsId [[1], [2]] [[1], [3]] [true, false]
        [(1 : ℚ)/100, 1/50] [100, 200] 42 =
      tune_iforest opsId [[1], [2]] [[1], [3]] [true, false]
        [(1 : ℚ)/100, 1/50] [100, 200] 42 :=
  tune_iforest_deterministic opsId [[1], [2]] [[1], [3]] [true, false]
    [(1 : ℚ)/100, 1/50] [100, 200] 42 _ _ rfl rfl

/-- C10: with nonempty grids and a training frame the scaler accepts
(nonempty), the first candidate's (precision, F1) key is componentwise at
least (0, 0), hence lexicographically strictly above the initial best key
(-1, -1), so a best candidate is always recorded and `tune_iforest` returns a
result: the four trailing `assert ... is not None` never fail. -/
theorem tune_iforest_always_selects (ops : SKOps) (nt v : List Row)
    (vl : List Bool) (cg : List ℚ) (ng : List ℕ) (seed : ℤ)
    (hnt : nt ≠ []) (hcg : cg ≠ []) (hng : ng ≠ []) :
    (0 ≤ (candKey ops (makeX ops nt) (makeX ops v) vl seed
        ((tuneCands cg ng).getD 0 (0, 0))).1 ∧
      0 ≤ (candKey ops (makeX ops nt) (makeX ops v) vl seed
        ((tuneCands cg ng).getD 0 (0, 0))).2) ∧
    KeyLt (-1, -1) (candKey ops (makeX ops nt) (makeX ops v) vl seed
      ((tuneCands cg ng).getD 0 (0, 0))) ∧
    ∃ r, tune_iforest ops nt v vl cg ng seed = .ok r := by
  refine ⟨⟨candKey_fst_nonneg _ _ _ _ _ _, candKey_snd_nonneg _ _ _ _ _ _⟩,
    keyLt_init_candKey _ _ _ _ _ _, ?_⟩
  obtain ⟨i, _, hok, _, _⟩ := tune_iforest_ok_char ops nt v vl cg ng seed hnt hcg hng
  exact ⟨_, hok⟩

/-- Witness for C10 at a concrete run. -/
theorem tune_iforest_always_selects_witness :
    (([[1], [2]] : List Row) ≠ [] ∧ ([(1 : ℚ)/100] : List ℚ) ≠ [] ∧
      ([50] : List ℕ) ≠ []) ∧
    (0 ≤ (candKey opsId (makeX opsId [[1], [2]]) (makeX opsId [[1], [3]])
        [true, false] 42
        ((tuneCands [(1 : ℚ)/100] [50]).getD 0 (0, 0))).1 ∧
      0 ≤ (candKey opsId (makeX opsId [[1], [2]]) (makeX opsId [[1], [3]])
        [true, false] 42
        ((tuneCands [(1 : ℚ)/100] [50]).getD 0 (0, 0))).2) ∧
    KeyLt (-1, -1) (candKey opsId (makeX opsId [[1], [2]]) (makeX opsId [[1], [3]])
      [true, false] 42 ((tuneCands [(1 : ℚ)/100] [50]).getD 0 (0, 0))) ∧
    ∃ r, tune_iforest opsId [[1], [2]] [[1], [3]] [true, false]
        [(1 : ℚ)/100] [50] 42 = .ok r :=
  ⟨⟨by decide, by decide, by decide⟩,
    tune_iforest_always_selects opsId [[1], [2]] [[1], [3]] [true, false]
      [(1 : ℚ)/100] [50] 42 (by decide) (by decide) (by decide)⟩

/-- C5 counterexample: on a degenerate baseline training set holding a single
unique value, `tune_iforest` completes and returns a result — it does not
fail, and no InsufficientDataError exists anywhere in the source. -/
theorem tune_iforest_degenerate_trains :
    exceptIsOk (tune_iforest opsId [[5], [5], [5]] [[5], [6]] [true, false]
      [(1 : ℚ)/100] [50] 42) = true := by with_unfolding_all rfl

/-- C5 (amended): `tune_iforest` fails — with the underlying library's
ValueError raised by `StandardScaler.fit_transform`, not with an
InsufficientDataError — exactly when the baseline training set is empty
(given nonempty grids); a degenerate nonempty training set (a single repeated
value) is not rejected: tuning completes and returns a result. -/
theorem tune_iforest_insufficient_data (ops : SKOps) (v : List Row)
    (vl : List Bool) (cg : List ℚ) (ng : List ℕ) (seed : ℤ)
    (hcg : cg ≠ []) (hng : ng ≠ []) :
    tune_iforest ops [] v vl cg ng seed =
      .error "ValueError: Found array with 0 sample(s)" ∧
    ∀ nt : List Row, nt ≠ [] → ∃ r, tune_iforest ops nt v vl cg ng seed = .ok r := by
  constructor
  · obtain ⟨cn, t, hc⟩ := List.exists_cons_of_ne_nil (tuneCands_ne_nil hcg hng)
    show (do
      let final ← (tuneCands cg ng).foldlM
        (tuneStep ops (makeX ops []) (makeX ops v) vl seed) ⟨(-1, -1), none⟩
      match final.best with
      | none => (Except.error "AssertionError" : Except String TuneResult)
      | some r => pure r) = _
    rw [hc, List.foldlM_cons]
    have hstep : tuneStep ops (makeX ops []) (makeX ops v) vl seed ⟨(-1, -1), none⟩ cn =
        .error "ValueError: Found array with 0 sample(s)" := by
      unfold tuneStep
      rw [if_pos (show (makeX ops ([] : List Row)).isEmpty = true from rfl)]
    rw [hstep]
    rfl
  · intro nt hnt
    obtain ⟨i, _, hok, _, _⟩ := tune_iforest_ok_char ops nt v vl cg ng seed hnt hcg hng
    exact ⟨_, hok⟩

/-- Witness for C5's amended theorem at concrete frames and grids. -/
theorem tune_iforest_insufficient_data_witness :
    (([(1 : ℚ)/100] : List ℚ) ≠ [] ∧ ([50] : List ℕ) ≠ []) ∧
    (tune_iforest opsId [] [[1], [3]] [true, false] [(1 : ℚ)/100] [50] 42 =
        .error "ValueError: Found array with 0 sample(s)" ∧
      ∀ nt : List Row, nt ≠ [] →
        ∃ r, tune_iforest opsId nt [[1], [3]] [true, false] [(1 : ℚ)/100] [50] 42 =
          .ok r) :=
  ⟨⟨by decide, by decide⟩,
    tune_iforest_insufficient_data opsId [[1], [3]] [true, false]
      [(1 : ℚ)/100] [50] 42 (by decide) (by decide)⟩

/-- Modelled from the spec: the fitted scaler statistics `explain_anomaly`
reads — the scaler's ordered feature names with their per-feature mean and
scale.  The implementation of `ModelManager.explain_anomaly`
(`src/argus_v/aegis/model_manager.py`) is not among the provided sources;
only its tests (`tests/aegis/test_xai.py`) are, so the component is modelled
from the specification (§4.5) and checked against the test vectors. -/
structure ScalerStats where
  features : List (String × ℚ × ℚ)
deriving DecidableEq, Repr

/-- Modelled from the spec: format one ranked feature as
`"<feature> (<sign><|z| to 1 decimal>σ)"` (the sign of z, then |z| rounded to
one decimal place). -/
def fmtZ (fz : String × ℚ) : String :=
  let sign := if fz.2 < 0 then "-" else "+"
  let r := round (10 * |fz.2|)
  fz.1 ++ " (" ++ sign ++ toString (r / 10) ++ "." ++ toString (r % 10) ++ "σ)"

/-- Stable insertion into a list ordered by descending absolute z-score. -/
def insertZDesc (x : String × ℚ) : List (String × ℚ) → List (String × ℚ)
  | [] => [x]
  | y :: ys => if |y.2| ≤ |x.2| then x :: y :: ys else y :: insertZDesc x ys

/-- Stable sort by descending absolute z-score (Python's stable `sorted` with
the absolute z key, reversed). -/
def sortZDesc (l : List (String × ℚ)) : List (String × ℚ) := l.foldr insertZDesc []

/-- Modelled from the spec: the (feature, z) pairs for every feature present
in both the record and the scaler's feature list, z = (value − mean)/scale. -/
def zScores (st : ScalerStats) (record : List (String × ℚ)) : List (String × ℚ) :=
  st.features.filterMap (fun fms =>
    match record.lookup fms.1 with
    | some v => some (fms.1, (v - fms.2.1) / fms.2.2)
    | none => none)

/-- Modelled from the spec: `ModelManager.explain_anomaly(record, top_k)`
(§4.5): with no scaler loaded return the single sentinel string; otherwise
rank the shared features by descending absolute z and return at most `top_k`
formatted strings (an empty list when no feature names are shared). -/
def explain_anomaly (scaler : Option ScalerStats) (record : List (String × ℚ))
    (top_k : ℕ) : List String :=
  match scaler with
  | none => ["Explanation unavailable (no scaler stats)"]
  | some st => ((sortZDesc (zScores st record)).take top_k).map fmtZ

lemma mem_insertZDesc {b x : String × ℚ} :
    ∀ {l : List (String × ℚ)}, b ∈ insertZDesc x l ↔ b = x ∨ b ∈ l := by
  intro l
  induction l with
  | nil => simp [insertZDesc]
  | cons y ys ih =>
    rw [insertZDesc]
    split
    · simp [List.mem_cons]
    · simp only [List.mem_cons, ih]
      tauto

lemma pairwise_insertZDesc (x : String × ℚ) {l : List (String × ℚ)}
    (h : l.Pairwise (fun a b => |b.2| ≤ |a.2|)) :
    (insertZDesc x l).Pairwise (fun a b => |b.2| ≤ |a.2|) := by
  induction l with
  | nil => simp [insertZDesc]
  | cons y ys ih =>
    rw [insertZDesc]
    rcases List.pairwise_cons.mp h with ⟨hy, hys⟩
    by_cases hxy : |y.2| ≤ |x.2|
    · rw [if_pos hxy]
      refine List.pairwise_cons.mpr ⟨?_, h⟩
      intro b hb
      rcases List.mem_cons.mp hb with rfl | hb
      · exact hxy
      · exact le_trans (hy b hb) hxy
    · rw [if_neg hxy]
      refine List.pairwise_cons.mpr ⟨?_, ih hys⟩
      intro b hb
      rcases mem_insertZDesc.mp hb with rfl | hb
      · exact le_of_lt (lt_of_not_le hxy)
      · exact hy b hb

lemma sortZDesc_pairwise (l : List (String × ℚ)) :
    (sortZDesc l).Pairwise (fun a b => |b.2| ≤ |a.2|) := by
  induction l with
  | nil => simp [sortZDesc]
  | cons a l ih => exact pairwise_insertZDesc a ih

lemma insertZDesc_perm (x : String × ℚ) (l : List (String × ℚ)) :
    (insertZDesc x l).Perm (x :: l) := by
  induction l with
  | nil => exact List.Perm.refl _
  | cons y ys ih =>
    rw [insertZDesc]
    split
    · exact List.Perm.refl _
    · exact (ih.cons y).trans (List.Perm.swap x y ys)

lemma sortZDesc_perm (l : List (String × ℚ)) : (sortZDesc l).Perm l := by
  induction l with
  | nil => exact List.Perm.refl _
  | cons a l ih => exact (insertZDesc_perm a (sortZDesc l)).trans (ih.cons a)

/-- C7: `explain_anomaly` computes z = (value − mean)/scale for each feature
present in both the record and the fitted scaler's feature list, ranks
exactly those scores by descending absolute z (the ranked list is sorted and
a permutation of the shared-feature z-scores), and returns at most `top_k`
strings formatted by `fmtZ`; with no scaler loaded it returns exactly the
single sentinel list, and with no shared feature names it returns []. -/
theorem explain_anomaly_spec (st : ScalerStats) (record : List (String × ℚ)) (k : ℕ) :
    explain_anomaly none record k = ["Explanation unavailable (no scaler stats)"] ∧
    ((∀ fms ∈ st.features, record.lookup fms.1 = none) →
      explain_anomaly (some st) record k = []) ∧
    (explain_anomaly (some st) record k).length ≤ k ∧
    (sortZDesc (zScores st record)).Pairwise (fun a b => |b.2| ≤ |a.2|) ∧
    explain_anomaly (some st) record k =
      ((sortZDesc (zScores st record)).take k).map fmtZ ∧
    (sortZDesc (zScores st record)).Perm (zScores st record) := by
  refine ⟨rfl, ?_, ?_, sortZDesc_pairwise _, rfl, sortZDesc_perm _⟩
  · intro h
    have hz : zScores st record = [] := by
      rw [zScores, List.filterMap_eq_nil_iff]
      intro fms hmem
      rw [h fms hmem]
    show ((sortZDesc (zScores st record)).take k).map fmtZ = []
    rw [hz]
    simp [sortZDesc]
  · show (((sortZDesc (zScores st record)).take k).map fmtZ).length ≤ k
    rw [List.length_map, List.length_take]
    exact min_le_left _ _

/-- The scaler statistics of the ranking test vector (`test_xai.py`,
`test_multiple_features_ranking`): means 0, scales 1 for F1, F2, F3. -/
def xaiScaler : ScalerStats := ⟨[("F1", 0, 1), ("F2", 0, 1), ("F3", 0, 1)]⟩

/-- The flow record of the ranking test vector: F1 = 10, F2 = −20, F3 = 5. -/
def xaiRecord : List (String × ℚ) := [("F1", 10), ("F2", -20), ("F3", 5)]

/-- Witness for C7: the characterization applies to the test-vector scaler
and record, and the explanation on them evaluates to the ranking the spec and
the tests demand. -/
theorem explain_anomaly_spec_witness :
    (explain_anomaly none xaiRecord 3 =
        ["Explanation unavailable (no scaler stats)"] ∧
      ((∀ fms ∈ xaiScaler.features, xaiRecord.lookup fms.1 = none) →
        explain_anomaly (some xaiScaler) xaiRecord 3 = []) ∧
      (explain_anomaly (some xaiScaler) xaiRecord 3).length ≤ 3 ∧
      (sortZDesc (zScores xaiScaler xaiRecord)).Pairwise (fun a b => |b.2| ≤ |a.2|) ∧
      explain_anomaly (some xaiScaler) xaiRecord 3 =
        ((sortZDesc (zScores xaiScaler xaiRecord)).take 3).map fmtZ ∧
      (sortZDesc (zScores xaiScaler xaiRecord)).Perm (zScores xaiScaler xaiRecord)) ∧
    explain_anomaly (some xaiScaler) xaiRecord 3 =
      ["F2 (-20.0σ)", "F1 (+10.0σ)", "F3 (+5.0σ)"] :=
  ⟨explain_anomaly_spec xaiScaler xaiRecord 3, by with_unfolding_all rfl⟩

/-- The full list of properties C2 asserts of the Evaluator's output. -/
def MetricsWithinBounds (yt yp : List Bool) : Prop :=
  (0 ≤ (compute_metrics yt yp).precision ∧ (compute_metrics yt yp).precision ≤ 1) ∧
  (0 ≤ (compute_metrics yt yp).recall ∧ (compute_metrics yt yp).recall ≤ 1) ∧
  (0 ≤ (compute_metrics yt yp).f1 ∧ (compute_metrics yt yp).f1 ≤ 1) ∧
  (0 ≤ (compute_metrics yt yp).true_positive_rate ∧
    (compute_metrics yt yp).true_positive_rate ≤ 1) ∧
  (0 ≤ (compute_metrics yt yp).false_positive_rate ∧
    (compute_metrics yt yp).false_positive_rate ≤ 1) ∧
  ((compute_metrics yt yp).tp + (compute_metrics yt yp).fp = 0 →
    (compute_metrics yt yp).precision = 0) ∧
  ((compute_metrics yt yp).tp + (compute_metrics yt yp).fn = 0 →
    (compute_metrics yt yp).recall = 0) ∧
  ((compute_metrics yt yp).fp + (compute_metrics yt yp).tn = 0 →
    (compute_metrics yt yp).false_positive_rate = 0) ∧
  ((compute_metrics yt yp).precision + (compute_metrics yt yp).recall = 0 →
    (compute_metrics yt yp).f1 = 0) ∧
  (compute_metrics yt yp).true_positive_rate = (compute_metrics yt yp).recall

/-- C2: for every pair of equal-length binary label arrays, `compute_metrics`
returns precision, recall, F1, true-positive rate and false-positive rate each
in [0, 1]; any ratio with a zero denominator is 0; F1 = 0 whenever
precision + recall = 0; and the true-positive rate equals recall. -/
theorem compute_metrics_bounds (yt yp : List Bool) (hlen : yt.length = yp.length) :
    MetricsWithinBounds yt yp := by
  unfold MetricsWithinBounds
  rw [compute_metrics_def]
  dsimp only
  refine ⟨⟨precisionOf_nonneg yt yp, precisionOf_le_one yt yp⟩,
    ⟨recallOf_nonneg yt yp, recallOf_le_one yt yp⟩,
    ⟨f1Of_nonneg yt yp, f1Of_le_one yt yp⟩,
    ⟨recallOf_nonneg yt yp, recallOf_le_one yt yp⟩,
    ⟨fprOf_nonneg yt yp, fprOf_le_one yt yp⟩, ?_, ?_, ?_, ?_, rfl⟩
  · intro h
    unfold precisionOf
    rw [if_neg (by omega)]
  · intro h
    unfold recallOf
    rw [if_neg (by omega)]
  · intro h
    unfold fprOf
    rw [if_neg (by omega)]
  · intro h
    unfold f1Of
    rw [if_neg (by simpa using h)]

/-- Witness for C2 at a concrete equal-length input. -/
theorem compute_metrics_bounds_witness :
    ([true, false, true] : List Bool).length = ([true, true, false] : List Bool).length ∧
    MetricsWithinBounds [true, false, true] [true, true, false] :=
  ⟨rfl, compute_metrics_bounds _ _ rfl⟩

/-- C8: `compute_metrics` is a pure function of its two label arrays (the
embedding is a function, mirroring the side-effect-free Python code), and its
result is invariant under any permutation applied simultaneously to both
arrays: permuting the list of (truth, prediction) pairs leaves the result
unchanged. -/
theorem compute_metrics_perm_invariant (pairs pairs' : List (Bool × Bool))
    (h : pairs.Perm pairs') :
    compute_metrics (pairs.map Prod.fst) (pairs.map Prod.snd) =
      compute_metrics (pairs'.map Prod.fst) (pairs'.map Prod.snd) := by
  have key : ∀ l : List (Bool × Bool), (l.map Prod.fst).zip (l.map Prod.snd) = l := by
    intro l
    rw [List.zip_map']
    simp
  have hc : ∀ p : Bool × Bool → Bool,
      ((pairs.map Prod.fst).zip (pairs.map Prod.snd)).countP p =
        ((pairs'.map Prod.fst).zip (pairs'.map Prod.snd)).countP p := by
    intro p
    rw [key, key]
    exact h.countP_eq p
  have htp : tpCount (pairs.map Prod.fst) (pairs.map Prod.snd) =
      tpCount (pairs'.map Prod.fst) (pairs'.map Prod.snd) := hc _
  have htn : tnCount (pairs.map Prod.fst) (pairs.map Prod.snd) =
      tnCount (pairs'.map Prod.fst) (pairs'.map Prod.snd) := hc _
  have hfp : fpCount (pairs.map Prod.fst) (pairs.map Prod.snd) =
      fpCount (pairs'.map Prod.fst) (pairs'.map Prod.snd) := hc _
  have hfn : fnCount (pairs.map Prod.fst) (pairs.map Prod.snd) =
      fnCount (pairs'.map Prod.fst) (pairs'.map Prod.snd) := hc _
  have hpre : precisionOf (pairs.map Prod.fst) (pairs.map Prod.snd) =
      precisionOf (pairs'.map Prod.fst) (pairs'.map Prod.snd) := by
    unfold precisionOf
    rw [htp, hfp]
  have hrec : recallOf (pairs.map Prod.fst) (pairs.map Prod.snd) =
      recallOf (pairs'.map Prod.fst) (pairs'.map Prod.snd) := by
    unfold recallOf
    rw [htp, hfn]
  have hf1 : f1Of (pairs.map Prod.fst) (pairs.map Prod.snd) =
      f1Of (pairs'.map Prod.fst) (pairs'.map Prod.snd) := by
    unfold f1Of
    rw [hpre, hrec]
  have hfpr : fprOf (pairs.map Prod.fst) (pairs.map Prod.snd) =
      fprOf (pairs'.map Prod.fst) (pairs'.map Prod.snd) := by
    unfold fprOf
    rw [hfp, htn]
  rw [compute_metrics_def, compute_metrics_def, htp, htn, hfp, hfn, hpre, hrec, hf1, hfpr]

/-- Witness for C8 at a concrete permuted pair of label arrays. -/
theorem compute_metrics_perm_invariant_witness :
    ([(true, false), (false, true)] : List (Bool × Bool)).Perm
      [(false, true), (true, false)] ∧
    compute_metrics
        ([(true, false), (false, true)].map Prod.fst)
        ([(true, false), (false, true)].map Prod.snd) =
      compute_metrics
        ([(false, true), (true, false)].map Prod.fst)
        ([(false, true), (true, false)].map Prod.snd) :=
  ⟨by decide, compute_metrics_perm_invariant _ _ (by decide)⟩

end ArgusV
